import Mathlib

/-!
Verification of the reconciliation core of `dcn-ipam-firewall-ssi`.

The development shallowly embeds the repository's TypeScript sources:

* `ssi/ssi.utils.ts` — the projection of Netbox prefix records to FortiOS
  address objects (`mapper`, `mapper6`) and the group member diff
  (`getAddGrpMemberChanges`).
* `ssi/services/fortios.service.ts` — `deployAddresses` / `deployAddresses6`,
  modelled as pure functions from an environment of collaborator responses to
  the sequence of API calls issued.
* `ssi/services/nsx.service.ts` — `createSecurityGroup` and
  `deploySecurityGroup`, likewise as call-trace functions.
* `ssi/ssi.worker.ts` — `SSIWorker.work`, as a function of the running flag,
  the priority argument and an environment of responses.

Fallible TypeScript code (thrown exceptions) is embedded as `Except`;
possibly-`undefined` values as `Option`.  Because the word `prefix` is used
for other purposes in this development's tooling, the Netbox record's
`prefix` field is embedded under the name `pfx`, and `NetboxPrefix` as
`NetboxRecord`; all other field names follow the source.
-/

/-- JavaScript string interpolation of a possibly-undefined string: template
literals render `undefined` as the text "undefined". -/
def optStr : Option String → String
  | some s => s
  | none => "undefined"

/-- JavaScript truthiness of a possibly-undefined string: defined and
non-empty. -/
def strTruthy : Option String → Bool
  | some s => s != ""
  | none => false

/-- `String.prototype.toLowerCase`. -/
def jsToLower (s : String) : String := String.mk (s.data.map Char.toLower)

/-- The comment derivation of `mapper`/`mapper6`:
`_prefix.vlan && vlan.name ? vlan.name.toLowerCase() : undefined`.
`vlanName` is `none` when the record has no vlan (or the vlan has no name);
an empty name is falsy in JavaScript and also yields `undefined`. -/
def jsComment : Option String → Option String
  | some s => if s == "" then none else some (jsToLower s)
  | none => none

/-- `String.prototype.split` on a one-character separator, over the
character list. -/
def splitCharList (c : Char) : List Char → List (List Char)
  | [] => [[]]
  | x :: xs =>
    let r := splitCharList c xs
    if x == c then [] :: r
    else
      match r with
      | h :: t => (x :: h) :: t
      | [] => [[x]]

/-- `s.split(c)` for a one-character separator `c`. -/
def jsSplit (s : String) (c : Char) : List String := (splitCharList c s.data).map String.mk

/-- Decimal parse of a non-empty all-digit character list (the shape the
`ip-num` validators accept for octets and prefix lengths). -/
def parseNatList : List Char → Option Nat
  | [] => none
  | l =>
    if l.all Char.isDigit then
      some (l.foldl (fun acc c => acc * 10 + (c.toNat - 48)) 0)
    else none

/-- First-occurrence de-duplication: the semantics both of the
`index === array.findIndex(...)` filter in `fortios.service.ts` and of
`[...new Set(xs)]` in `nsx.service.ts`. -/
def keepFirstOccurrences {α : Type} [BEq α] (l : List α) : List α :=
  l.foldl (fun acc x => if acc.contains x then acc else acc ++ [x]) []

/-- `Array.prototype.map` over a callback that may throw: the first thrown
error aborts the whole map. -/
def mapExcept {α β ε : Type} (f : α → Except ε β) : List α → Except ε (List β)
  | [] => Except.ok []
  | x :: xs =>
    match f x with
    | Except.error e => Except.error e
    | Except.ok y =>
      match mapExcept f xs with
      | Except.error e => Except.error e
      | Except.ok ys => Except.ok (y :: ys)

/-- A Netbox prefix record as consumed by the core: the CIDR text (`pfx`,
the source's `prefix` field), the address family value, the vlan name and
the display string.  Immutable input from IPAM. -/
structure NetboxRecord where
  pfx : Option String
  family : Option Nat
  vlanName : Option String
  display : Option String
deriving DecidableEq, Repr

/-- A FortiOS IPv4 firewall address object as built by `mapper`. -/
structure FortiOSFirewallAddress where
  name : String
  comment : Option String
  subnet : String
  color : Nat
deriving DecidableEq, Repr

/-- A FortiOS IPv6 firewall address object as built by `mapper6`. -/
structure FortiOSFirewallAddress6 where
  name : String
  comment : Option String
  ip6 : Option String
deriving DecidableEq, Repr

/-- A group member reference: membership is by name only. -/
structure MemberRef where
  name : String
deriving DecidableEq, Repr

/-- A FortiOS address group (the IPv4 and IPv6 variants share this shape). -/
structure FortiOSFirewallAddrGrp where
  name : String
  member : List MemberRef
deriving DecidableEq, Repr

/-- The result of the member diff: added and removed member names. -/
structure DiffResult where
  added : List String
  removed : List String
deriving DecidableEq, Repr

/-- The dotted-quad netmask of a prefix length, as
`IPv4CidrRange.fromCidr(..).getPrefix().toMask().toString()` renders it. -/
def maskString (n : Nat) : String :=
  let m := 2 ^ 32 - 2 ^ (32 - n)
  Nat.repr (m / 2 ^ 24 % 256) ++ "." ++ Nat.repr (m / 2 ^ 16 % 256) ++ "." ++
    Nat.repr (m / 2 ^ 8 % 256) ++ "." ++ Nat.repr (m % 256)

/-- The prefix length read from a CIDR text, when the text has exactly one
slash and digits after it. -/
def cidrLenOf (s : String) : Option Nat :=
  match jsSplit s '/' with
  | [_, lenPart] => parseNatList lenPart.data
  | _ => none

/-- `ip-num` validation of the address part: four dot-separated decimal
octets, each at most 255. -/
def validOctets (ipPart : String) : Bool :=
  let parts := jsSplit ipPart '.'
  parts.length == 4 && parts.all (fun o =>
    match parseNatList o.data with
    | some v => decide (v ≤ 255)
    | none => false)

/-- `IPv4CidrRange.fromCidr(cidr).getPrefix().toMask().toString()`: parses
and validates the CIDR text and yields the dotted mask; throws on anything
that is not valid IPv4 CIDR notation. -/
def ipv4MaskFromCidr (cidr : String) : Except String String :=
  match jsSplit cidr '/' with
  | [ipPart, lenPart] =>
    match parseNatList lenPart.data with
    | some n =>
      if validOctets ipPart && decide (n ≤ 32) then Except.ok (maskString n)
      else Except.error "invalid IPv4 CIDR"
    | none => Except.error "invalid IPv4 CIDR"
  | _ => Except.error "invalid IPv4 CIDR"

/-- The body of `mapper`'s map callback for one record: builds the address
object, throwing when the record's CIDR text is absent or invalid (the mask
derivation throws in the source). -/
def mapOne4 (p : NetboxRecord) : Except String FortiOSFirewallAddress :=
  match p.pfx with
  | none => Except.error "TypeError: cannot derive a mask from undefined"
  | some s =>
    match ipv4MaskFromCidr s with
    | Except.error e => Except.error e
    | Except.ok mask =>
      Except.ok
        { name := "netbox_" ++ s
        , comment := jsComment p.vlanName
        , subnet := (jsSplit s '/').headD "" ++ " " ++ mask
        , color := 0 }

/-- `mapper` of `ssi.utils.ts`: keeps the family-4 records and maps each to
an IPv4 address object; a record whose mask derivation throws aborts the
whole projection. -/
def mapper (records : List NetboxRecord) : Except String (List FortiOSFirewallAddress) :=
  mapExcept mapOne4 (records.filter (fun p => p.family == some 4))

/-- `mapper6` of `ssi.utils.ts`: keeps the family-6 records and maps each to
an IPv6 address object (no parsing, hence total). -/
def mapper6 (records : List NetboxRecord) : List FortiOSFirewallAddress6 :=
  (records.filter (fun p => p.family == some 6)).map (fun p =>
    { name := "netbox6_" ++ optStr p.display
    , comment := jsComment p.vlanName
    , ip6 := p.pfx })

/-- lodash `differenceWith(array, values, compareMembers)` with the
comparator `(a, b) => a.name === b.name`: the elements of `array` with no
name match in `values`. -/
def differenceWith (array values : List MemberRef) : List MemberRef :=
  array.filter (fun a => !(values.any (fun b => a.name == b.name)))

/-- The diff computation of `getAddGrpMemberChanges` once both group
arguments are known to be defined. -/
def memberChangesCore (existingGroup newGroup : FortiOSFirewallAddrGrp) : DiffResult :=
  { added := (differenceWith newGroup.member existingGroup.member).map (fun m => m.name)
  , removed := (differenceWith existingGroup.member newGroup.member).map (fun m => m.name) }

/-- `getAddGrpMemberChanges` of `ssi.utils.ts`: throws when either group is
absent, otherwise returns the added/removed member names. -/
def getAddGrpMemberChanges :
    Option FortiOSFirewallAddrGrp → Option FortiOSFirewallAddrGrp → Except String DiffResult
  | some g1, some g2 => Except.ok (memberChangesCore g1 g2)
  | _, _ => Except.error "FortiOS member group(s) cannot be undefined"

/-- One element of a `getAddress(name, { with_meta: 1 })` response: the
reference-count metadata field `q_ref` (absent when the platform omits it). -/
structure AddrResult where
  q_ref : Option Nat
deriving DecidableEq, Repr

/-- The FortiOS collaborator responses for one scope (VDOM) during one run of
`deployAddresses`/`deployAddresses6`.  A `none` response models a fetch whose
promise rejected (the source logs and continues with `undefined`).  The
outcomes of the mutation calls (`addAddressOk`, `updateOk`, `deleteOk`) are
part of the environment although the source's `.catch` handlers only log
them: the reconciler's control flow never reads them. -/
structure FGEnv where
  groupsResp : Option (List FortiOSFirewallAddrGrp)
  addressesResp : Option (List String)
  addAddressOk : String → Bool
  updateOk : Bool
  getAddressResp : String → Option (List AddrResult)
  deleteOk : String → Bool

/-- One outbound FortiOS API call, as issued by
`deployAddresses` (`fam = 4`) or `deployAddresses6` (`fam = 6`).  Address
payloads are identified by their `name` field, the only field the
reconciler's decisions read. -/
inductive FGCall where
  | getAddressGroups (fam : Nat)
  | getAddressList (fam : Nat)
  | addAddress (fam : Nat) (name : String)
  | addAddressGroup (fam : Nat) (gname : String) (members : List String)
  | updateAddressGroup (fam : Nat) (gname : String) (members : List String)
  | getAddress (fam : Nat) (name : String)
  | deleteAddress (fam : Nat) (name : String)
deriving DecidableEq, Repr

/-- The create loop of `deployAddresses`: one `addAddress` per desired name
not found in the fetched address snapshot. -/
def createCallsOf (fam : Nat) (addresses names : List String) : List FGCall :=
  (names.filter (fun n => !(addresses.any (fun a => a == n)))).map
    (fun n => FGCall.addAddress fam n)

/-- The safe-delete loop over `updates.removed`: fetch the reference count,
and delete only when the fetch succeeded, returned a first result, and that
result's `q_ref` is exactly 0.  A failed fetch is swallowed
(`.catch(() => {})`) and skips the delete. -/
def safeDeleteCalls (fam : Nat) (env : FGEnv) (removed : List String) : List FGCall :=
  removed.flatMap (fun nm =>
    FGCall.getAddress fam nm ::
      (match env.getAddressResp nm with
       | some results =>
         match results.head? with
         | some r => if r.q_ref = some 0 then [FGCall.deleteAddress fam nm] else []
         | none => []
       | none => []))

/-- An NSX security-group tag. -/
structure VMwareNSXTag where
  scope : String
  tag : String
deriving DecidableEq, Repr

/-- One expression of an NSX group; observed IP values may include nulls,
embedded as `Option String`. -/
structure VMwareNSXExpr where
  ip_addresses : Option (List (Option String))
  resource_type : String
deriving DecidableEq, Repr

/-- An NSX security group. -/
structure VMwareNSXGroup where
  display_name : String
  description : String
  expression : Option (List VMwareNSXExpr)
  tags : List VMwareNSXTag
deriving DecidableEq, Repr

/-- The NSX collaborator responses for one endpoint during one
`deploySecurityGroup` run: `getGroupResp = none` models both "not found" and
a rejected fetch (the source's `.catch` collapses the two into `undefined`),
and `patchOk` the outcome of the patch call (logged, never read). -/
structure NSXEnv where
  getGroupResp : Option VMwareNSXGroup
  patchOk : Bool

/-- One outbound NSX API call issued by `deploySecurityGroup`. -/
inductive NSXCall where
  | getGroup (name : String) (globalManager : Bool)
  | patchGroup (name : String) (group : VMwareNSXGroup) (globalManager : Bool)
deriving DecidableEq, Repr

/-- One VDOM of a configured FortiGate endpoint, together with the responses
its scope gives to the IPv4 and the IPv6 reconciliation of this run. -/
structure VdomSpec where
  vname : String
  env4 : FGEnv
  env6 : FGEnv

/-- A configured FortiGate endpoint: its enabled flag and its VDOM list
(`none` models a missing `vdoms` attribute; the worker skips the endpoint
when it is missing or empty). -/
structure FortigateEndpointSpec where
  enabled : Bool
  vdoms : Option (List VdomSpec)

/-- A configured NSX endpoint: whether its `type` is `"global"`, and its
responses for this run. -/
structure NSXEndpointSpec where
  isGlobal : Bool
  env : NSXEnv

/-- A Netbox integrator as the worker consumes it: name, enabled flag, the
group-management request flags and names for each platform, and the declared
target endpoints.  Fields the reconciliation decisions never read (the IPAM
query, endpoint credentials, logging metadata) are omitted. -/
structure NAMNetboxIntegrator where
  name : String
  enabled : Bool
  create_fg_group : Bool
  fg_group_name : Option String
  fortigate_endpoints : List FortigateEndpointSpec
  create_nsx_group : Bool
  nsx_endpoints : Option (List NSXEndpointSpec)
  nsx_group_name : Option String
  nsx_group_scope : Option String
  nsx_group_tag : Option String

/-- The derived group name of the scope's group phase: the family's tag
(`grp_` or `grp6_`) followed by the integrator's `fg_group_name`, as the
source's template literal builds it. -/
def groupNameOf (grpTag : String) (integ : NAMNetboxIntegrator) : String :=
  grpTag ++ optStr integ.fg_group_name

/-- The `updatedGroup` literal of the update branch: the derived name and the
first-occurrence-de-duplicated desired members. -/
def updatedGroupOf (groupName : String) (names : List String) : FortiOSFirewallAddrGrp :=
  { name := groupName
  , member := (keepFirstOccurrences names).map (fun n => { name := n }) }

/-- The group-management phase of `deployAddresses`/`deployAddresses6`,
entered only when `integrator.create_fg_group` holds and
`integrator.fg_group_name` is truthy:

* no group of the derived name in the snapshot — create it, with
  `prefixes.map(p => ({name: p.name}))` as members (the source does not
  de-duplicate here);
* otherwise diff the found group against the first-occurrence-de-duplicated
  desired members, and when the diff is non-empty issue the update followed
  by the safe-delete loop (the update's `.catch` only logs, so the loop runs
  whether or not the update succeeded). -/
def groupPhaseCalls (fam : Nat) (grpTag : String) (env : FGEnv) (integ : NAMNetboxIntegrator)
    (groups : List FortiOSFirewallAddrGrp) (names : List String) : List FGCall :=
  if integ.create_fg_group && strTruthy integ.fg_group_name then
    match groups.find? (fun g => g.name == groupNameOf grpTag integ) with
    | none => [FGCall.addAddressGroup fam (groupNameOf grpTag integ) names]
    | some group =>
      if 0 < (memberChangesCore group (updatedGroupOf (groupNameOf grpTag integ) names)).added.length ∨
          0 < (memberChangesCore group (updatedGroupOf (groupNameOf grpTag integ) names)).removed.length then
        FGCall.updateAddressGroup fam (groupNameOf grpTag integ) (keepFirstOccurrences names) ::
          safeDeleteCalls fam env
            (memberChangesCore group (updatedGroupOf (groupNameOf grpTag integ) names)).removed
      else []
  else []

/-- The common body of `deployAddresses` (`fam = 4`, tag `"grp_"`) and
`deployAddresses6` (`fam = 6`, tag `"grp6_"`); the two source functions are
textually parallel.  With a `null` firewall handle nothing happens; after the
two snapshot fetches, a missing snapshot logs and returns; otherwise the
create loop runs, then the group phase. -/
def deployAddressesCore (fam : Nat) (grpTag : String) (firewallPresent : Bool) (env : FGEnv)
    (integ : NAMNetboxIntegrator) (names : List String) : List FGCall :=
  if firewallPresent then
    match env.groupsResp, env.addressesResp with
    | some groups, some addresses =>
      FGCall.getAddressGroups fam :: FGCall.getAddressList fam ::
        (createCallsOf fam addresses names ++ groupPhaseCalls fam grpTag env integ groups names)
    | _, _ => [FGCall.getAddressGroups fam, FGCall.getAddressList fam]
  else []

/-- `deployAddresses` of `fortios.service.ts`, as the call trace it issues
for one VDOM; desired address objects are given by their names. -/
def deployAddresses (firewallPresent : Bool) (env : FGEnv) (integ : NAMNetboxIntegrator)
    (names : List String) : List FGCall :=
  deployAddressesCore 4 "grp_" firewallPresent env integ names

/-- `deployAddresses6` of `fortios.service.ts`, the IPv6 instantiation of the
same algorithm (group tag `grp6_`). -/
def deployAddresses6 (firewallPresent : Bool) (env : FGEnv) (integ : NAMNetboxIntegrator)
    (names : List String) : List FGCall :=
  deployAddressesCore 6 "grp6_" firewallPresent env integ names

/-- The observed IP values of a fetched NSX group: the concatenation of all
expressions' `ip_addresses`, de-duplicated via `[...new Set(..)]`. -/
def nsxObservedIps (g : VMwareNSXGroup) : List (Option String) :=
  keepFirstOccurrences
    (match g.expression with
     | some exprs =>
       exprs.foldl (fun acc e =>
         match e.ip_addresses with
         | some ips => acc ++ ips
         | none => acc) []
     | none => [])

/-- "Members only present in Netbox": desired prefix values with no strict
match among the observed values. -/
def nsxAdded (observed : List (Option String)) (records : List NetboxRecord) :
    List (Option String) :=
  (records.map (fun p => p.pfx)).filter (fun nb => !(observed.any (fun ip => ip == nb)))

/-- "Members only present in NSX": observed values with no strict match among
the desired prefix values. -/
def nsxDeleted (observed : List (Option String)) (records : List NetboxRecord) :
    List (Option String) :=
  observed.filter (fun ip => !((records.map (fun p => p.pfx)).any (fun nb => nb == ip)))

/-- `createSecurityGroup` of `nsx.service.ts`: the desired group spec, with a
single IP-address expression when the desired value list is non-empty and a
tag only when both scope and tag are configured. -/
def createSecurityGroup (integ : NAMNetboxIntegrator) (records : List NetboxRecord) :
    VMwareNSXGroup :=
  let ipAddresses := records.map (fun p => p.pfx)
  let tags : List VMwareNSXTag :=
    if strTruthy integ.nsx_group_scope && strTruthy integ.nsx_group_tag then
      [{ scope := optStr integ.nsx_group_scope, tag := optStr integ.nsx_group_tag }]
    else []
  if 0 < ipAddresses.length then
    { display_name := "nsg-" ++ optStr integ.nsx_group_name
    , description := "Managed by NAM"
    , expression := some [{ ip_addresses := some ipAddresses
                          , resource_type := "IPAddressExpression" }]
    , tags := tags }
  else
    { display_name := "nsg-" ++ optStr integ.nsx_group_name
    , description := "Managed by NAM"
    , expression := none
    , tags := tags }

/-- `deploySecurityGroup` of `nsx.service.ts`, as the call trace it issues:
fetch the group; when absent, create it with the full desired spec; when
found, flatten and de-duplicate the observed values, diff them against the
desired values, and when the diff is non-empty issue one patch carrying the
complete desired spec. -/
def deploySecurityGroup (env : NSXEnv) (securityGroupObject : VMwareNSXGroup)
    (records : List NetboxRecord) (globalManager : Bool) : List NSXCall :=
  NSXCall.getGroup securityGroupObject.display_name globalManager ::
    (match env.getGroupResp with
     | none =>
       [NSXCall.patchGroup securityGroupObject.display_name securityGroupObject globalManager]
     | some securityGroup =>
       let groupIps := nsxObservedIps securityGroup
       let added := nsxAdded groupIps records
       let deleted := nsxDeleted groupIps records
       if 0 < added.length ∨ 0 < deleted.length then
         [NSXCall.patchGroup securityGroupObject.display_name securityGroupObject globalManager]
       else [])

/-- One outbound call issued during `SSIWorker.work`: the integrator fetch,
a per-integrator prefix fetch, or a FortiOS/NSX call of the deployment
phases. -/
inductive WorkCall where
  | getIntegrators (priority : String)
  | getPrefixes (integratorName : String)
  | forti (c : FGCall)
  | nsx (c : NSXCall)
deriving DecidableEq, Repr

/-- The collaborator responses of one `work` run: the integrator list (a
rejected fetch collapses to the empty list via `|| []`) and each
integrator's prefix-query response (`none` models a rejected fetch, which
skips the integrator). -/
structure WorkEnv where
  integratorsResp : Option (List NAMNetboxIntegrator)
  prefixResp : String → Option (List NetboxRecord)

/-- The firewall-deployment phase for one integrator: entered when the
integrator requests group management and declares FortiGate endpoints; each
enabled endpoint with a non-empty VDOM list gets the IPv4 and IPv6
reconciliation of every VDOM.  The source awaits the per-VDOM reconciliations
concurrently via `Promise.all`; the trace lists them in declaration order. -/
def fortigatePhase (integ : NAMNetboxIntegrator) (addrs4 addrs6 : List String) : List WorkCall :=
  if integ.create_fg_group && decide (0 < integ.fortigate_endpoints.length) then
    integ.fortigate_endpoints.flatMap (fun fg =>
      match fg.vdoms with
      | none => []
      | some vds =>
        if vds.length == 0 then []
        else if fg.enabled then
          vds.flatMap (fun vd =>
            (deployAddresses true vd.env4 integ addrs4).map WorkCall.forti ++
              (deployAddresses6 true vd.env6 integ addrs6).map WorkCall.forti)
        else [])
  else []

/-- The NSX-deployment phase for one integrator: entered when the integrator
requests NSX group management and has an `nsx_endpoints` attribute; the
desired spec is built once and pushed to each endpoint sequentially. -/
def nsxPhase (integ : NAMNetboxIntegrator) (records : List NetboxRecord) : List WorkCall :=
  if integ.create_nsx_group && integ.nsx_endpoints.isSome then
    let securityGroup := createSecurityGroup integ records
    (integ.nsx_endpoints.getD []).flatMap (fun ep =>
      (deploySecurityGroup ep.env securityGroup records ep.isGlobal).map WorkCall.nsx)
  else []

/-- The per-integrator loop of `SSIWorker.work` (production configuration:
no test-integrator override, so a disabled integrator is skipped).  A failed
prefix fetch skips the integrator; a throwing projection (`mapper`)
propagates out of the loop as the run's error. -/
def processIntegrators (env : WorkEnv) : List NAMNetboxIntegrator → Except String (List WorkCall)
  | [] => Except.ok []
  | integ :: rest =>
    if !integ.enabled then processIntegrators env rest
    else
      match env.prefixResp integ.name with
      | none =>
        match processIntegrators env rest with
        | Except.error e => Except.error e
        | Except.ok tr => Except.ok (WorkCall.getPrefixes integ.name :: tr)
      | some records =>
        match mapper records with
        | Except.error e => Except.error e
        | Except.ok addrs4 =>
          let addrs6 := mapper6 records
          let calls :=
            fortigatePhase integ (addrs4.map (fun a => a.name)) (addrs6.map (fun a => a.name)) ++
              nsxPhase integ records
          match processIntegrators env rest with
          | Except.error e => Except.error e
          | Except.ok tr => Except.ok (WorkCall.getPrefixes integ.name :: (calls ++ tr))

/-- `SSIWorker.work`: when the running flag is already set, the run is
rejected with the distinct signal 7 and no call is issued; otherwise the
integrator list is fetched and processed, the run returns 0 on completion,
and an error thrown inside the loop propagates (after the source clears the
running flag). -/
def work (running : Bool) (priority : String) (env : WorkEnv) :
    Except String (Nat × List WorkCall) :=
  if running then Except.ok (7, [])
  else
    match processIntegrators env (match env.integratorsResp with | some l => l | none => []) with
    | Except.error e => Except.error e
    | Except.ok tr => Except.ok (0, WorkCall.getIntegrators priority :: tr)

/-- What C4 states of one emitted IPv4 address object relative to its source
record: the `netbox_`-prefixed name, the lowercased-label comment, color 0,
and a payload of the form "network-address dotted-mask" with the mask derived
from the record's CIDR prefix length. -/
def addr4Matches (p : NetboxRecord) (a : FortiOSFirewallAddress) : Prop :=
  a.name = "netbox_" ++ optStr p.pfx ∧
  a.comment = jsComment p.vlanName ∧
  a.color = 0 ∧
  ∃ s n, p.pfx = some s ∧ cidrLenOf s = some n ∧
    a.subnet = (jsSplit s '/').headD "" ++ " " ++ maskString n

/-- The spec's worked projection example: prefix 192.168.1.0/24, family 4,
label "Production". -/
def recProd : NetboxRecord :=
  { pfx := some "192.168.1.0/24", family := some 4
  , vlanName := some "Production", display := some "192.168.1.0/24" }

/-- A family-4 record whose CIDR text is absent. -/
def recBad : NetboxRecord :=
  { pfx := none, family := some 4, vlanName := none, display := none }

/-- The address object the worked example projects to. -/
def addrProd : FortiOSFirewallAddress :=
  { name := "netbox_192.168.1.0/24", comment := some "production"
  , subnet := "192.168.1.0 255.255.255.0", color := 0 }

/-- An integrator requesting FortiOS group management under the name "g". -/
def integEx : NAMNetboxIntegrator :=
  { name := "int1", enabled := true, create_fg_group := true, fg_group_name := some "g"
  , fortigate_endpoints := [], create_nsx_group := false, nsx_endpoints := none
  , nsx_group_name := none, nsx_group_scope := none, nsx_group_tag := none }

/-- A scope where the member diff removes `netbox_10.9.9.0/24` and the
reference-count fetch reports `q_ref = 0`: the delete fires. -/
def c1Env : FGEnv :=
  { groupsResp := some [⟨"grp_g", [⟨"netbox_10.0.0.0/24"⟩, ⟨"netbox_10.9.9.0/24"⟩]⟩]
  , addressesResp := some ["netbox_10.0.0.0/24"]
  , addAddressOk := fun _ => true
  , updateOk := true
  , getAddressResp := fun _ => some [⟨some 0⟩]
  , deleteOk := fun _ => true }

/-- A scope where the group update fails (`updateOk = false`) while the diff
removes `netbox_old`: the source still runs the safe-delete loop. -/
def c2Env : FGEnv :=
  { groupsResp := some [⟨"grp_g", [⟨"netbox_old"⟩]⟩]
  , addressesResp := some ["netbox_new"]
  , addAddressOk := fun _ => true
  , updateOk := false
  , getAddressResp := fun _ => some [⟨some 1⟩]
  , deleteOk := fun _ => true }

/-- A scope with no existing group of the derived name: the create branch of
the group phase runs. -/
def c3Env : FGEnv :=
  { groupsResp := some []
  , addressesResp := some ["netbox_dup"]
  , addAddressOk := fun _ => true
  , updateOk := true
  , getAddressResp := fun _ => none
  , deleteOk := fun _ => true }

/-- An integrator requesting NSX group management under the key "app". -/
def nsxIntegEx : NAMNetboxIntegrator :=
  { name := "int2", enabled := true, create_fg_group := false, fg_group_name := none
  , fortigate_endpoints := [], create_nsx_group := true, nsx_endpoints := some []
  , nsx_group_name := some "app", nsx_group_scope := none, nsx_group_tag := none }

/-- The spec's security-group scenario: desired value 10.0.0.2. -/
def nsxRecsEx : List NetboxRecord :=
  [{ pfx := some "10.0.0.2", family := some 4, vlanName := none, display := none }]

/-- The desired group spec built for the scenario. -/
def nsxDesiredEx : VMwareNSXGroup := createSecurityGroup nsxIntegEx nsxRecsEx

/-- The observed group of the scenario: one expression holding 10.0.0.1. -/
def nsxObservedEx : VMwareNSXGroup :=
  { display_name := "nsg-app", description := ""
  , expression := some [{ ip_addresses := some [some "10.0.0.1"]
                        , resource_type := "IPAddressExpression" }]
  , tags := [] }

/-- The NSX endpoint responses of the scenario. -/
def c9Env : NSXEnv := { getGroupResp := some nsxObservedEx, patchOk := true }

lemma mapExcept_ok_forall₂ {α β ε : Type} (f : α → Except ε β) :
    ∀ (l : List α) (out : List β), mapExcept f l = Except.ok out →
      List.Forall₂ (fun x y => f x = Except.ok y) l out := by
  intro l
  induction l with
  | nil =>
    intro out h
    simp only [mapExcept, Except.ok.injEq] at h
    subst h
    exact List.Forall₂.nil
  | cons x xs ih =>
    intro out h
    unfold mapExcept at h
    cases hx : f x with
    | error e => rw [hx] at h; exact absurd h (by simp)
    | ok y =>
      rw [hx] at h
      cases hr : mapExcept f xs with
      | error e => rw [hr] at h; exact absurd h (by simp)
      | ok ys =>
        rw [hr] at h
        simp only [Except.ok.injEq] at h
        subst h
        exact List.Forall₂.cons hx (ih ys hr)

lemma ipv4MaskFromCidr_ok {s m : String} (h : ipv4MaskFromCidr s = Except.ok m) :
    ∃ n, cidrLenOf s = some n ∧ m = maskString n := by
  unfold ipv4MaskFromCidr at h
  unfold cidrLenOf
  split at h
  · rename_i ipPart lenPart heq
    split at h
    · rename_i n hn
      split at h
      · simp only [Except.ok.injEq] at h
        exact ⟨n, hn, h.symm⟩
      · exact absurd h (by simp)
    · exact absurd h (by simp)
  · exact absurd h (by simp)

lemma mapOne4_ok_matches {p : NetboxRecord} {a : FortiOSFirewallAddress}
    (h : mapOne4 p = Except.ok a) : addr4Matches p a := by
  unfold mapOne4 at h
  split at h
  · exact absurd h (by simp)
  · rename_i s hp
    split at h
    · exact absurd h (by simp)
    · rename_i mask hm
      simp only [Except.ok.injEq] at h
      obtain ⟨n, hn, hmask⟩ := ipv4MaskFromCidr_ok hm
      subst h
      exact ⟨by rw [hp]; rfl, rfl, rfl, s, n, hp, hn, by rw [hmask]⟩

/-- C4: the IPv4 projection emits one object per family-4 record and none for
any other family; each object's name is "netbox_" plus the original CIDR
text, its payload is "network-address dotted-mask" with the mask derived from
the prefix length, and its comment the lowercased label when present.  In
particular the record with prefix 192.168.1.0/24, family 4 and label
"Production" projects to exactly the object named "netbox_192.168.1.0/24"
with subnet "192.168.1.0 255.255.255.0" and comment "production". -/
theorem mapper_ipv4_projection :
    (∀ (records : List NetboxRecord) (out : List FortiOSFirewallAddress),
      mapper records = Except.ok out →
        List.Forall₂ addr4Matches (records.filter (fun p => p.family == some 4)) out) ∧
    mapper [recProd] = Except.ok [addrProd] := by
  constructor
  · intro records out h
    unfold mapper at h
    exact (mapExcept_ok_forall₂ mapOne4 _ _ h).imp (fun _ _ hx => mapOne4_ok_matches hx)
  · rfl

/-- C10: the IPv4 projection is not total: a family-4 record whose prefix
text is absent makes the mask derivation throw, so the projection of the
whole list aborts with an error, although the same list without the
malformed record projects fine. -/
theorem mapper_aborts_on_malformed :
    mapper [recProd, recBad] =
        Except.error "TypeError: cannot derive a mask from undefined" ∧
      mapper [recProd] = Except.ok [addrProd] := ⟨rfl, rfl⟩

/-- C5: for defined groups, the diff's `added` is exactly the names present
among the desired members and absent from the existing members, and
`removed` the converse; for existing members a1, a2 and desired members
a1, a3, a4 it returns added = [a3, a4] and removed = [a2]. -/
theorem groupDiff_added_removed :
    (∀ A B : FortiOSFirewallAddrGrp,
      getAddGrpMemberChanges (some A) (some B) = Except.ok (memberChangesCore A B)) ∧
    (∀ (A B : FortiOSFirewallAddrGrp) (x : String),
      x ∈ (memberChangesCore A B).added ↔
        ((∃ m ∈ B.member, m.name = x) ∧ ∀ m ∈ A.member, m.name ≠ x)) ∧
    (∀ (A B : FortiOSFirewallAddrGrp) (x : String),
      x ∈ (memberChangesCore A B).removed ↔
        ((∃ m ∈ A.member, m.name = x) ∧ ∀ m ∈ B.member, m.name ≠ x)) ∧
    memberChangesCore ⟨"grp", [⟨"a1"⟩, ⟨"a2"⟩]⟩ ⟨"grp", [⟨"a1"⟩, ⟨"a3"⟩, ⟨"a4"⟩]⟩ =
      ⟨["a3", "a4"], ["a2"]⟩ := by
  have char : ∀ (fromG notG : List MemberRef) (x : String),
      x ∈ (differenceWith fromG notG).map (fun m => m.name) ↔
        ((∃ m ∈ fromG, m.name = x) ∧ ∀ m ∈ notG, m.name ≠ x) := by
    intro fromG notG x
    simp only [differenceWith, List.mem_map, List.mem_filter, Bool.not_eq_true',
      List.any_eq_false, beq_eq_false_iff_ne, ne_eq]
    constructor
    · rintro ⟨a, ⟨haF, hnone⟩, hax⟩
      exact ⟨⟨a, haF, hax⟩, fun m hm hmx => hnone m hm (by simp [hax, hmx])⟩
    · rintro ⟨⟨a, haF, hax⟩, hall⟩
      exact ⟨a, ⟨haF, fun b hb hab => hall b hb (by rw [← eq_of_beq hab]; exact hax)⟩, hax⟩
  exact ⟨fun A B => rfl, fun A B x => char B.member A.member x,
    fun A B x => char A.member B.member x, by decide⟩

/-- C6: the diff is antisymmetric: swapping the two group arguments swaps the
added and removed lists (here they agree even as lists, hence as sets). -/
theorem groupDiff_antisymmetric :
    ∀ A B : FortiOSFirewallAddrGrp,
      ∃ r s : DiffResult,
        getAddGrpMemberChanges (some A) (some B) = Except.ok r ∧
        getAddGrpMemberChanges (some B) (some A) = Except.ok s ∧
        r.added = s.removed ∧ r.removed = s.added :=
  fun A B => ⟨memberChangesCore A B, memberChangesCore B A, rfl, rfl, rfl, rfl⟩

/-- C7: the diff fails with the precondition-violation error whenever either
group argument is absent, for every group G, rather than returning any
default result. -/
theorem groupDiff_undefined_throws :
    ∀ G : FortiOSFirewallAddrGrp,
      getAddGrpMemberChanges none (some G) =
          Except.error "FortiOS member group(s) cannot be undefined" ∧
        getAddGrpMemberChanges (some G) none =
          Except.error "FortiOS member group(s) cannot be undefined" :=
  fun _ => ⟨rfl, rfl⟩

/-- C8: invoking `work` while a run is already in progress returns the
distinct "already running" exit value 7 (which is not the success value 0)
and issues no call at all — no integrator fetch, no prefix fetch, no
mutation. -/
theorem work_single_flight :
    (∀ (priority : String) (env : WorkEnv),
      work true priority env = Except.ok (7, ([] : List WorkCall))) ∧
    (7 : Nat) ≠ 0 :=
  ⟨fun _ _ => rfl, by decide⟩

lemma createCallsOf_mem {fam : Nat} {addresses names : List String} {c : FGCall}
    (h : c ∈ createCallsOf fam addresses names) : ∃ n, c = FGCall.addAddress fam n := by
  simp only [createCallsOf, List.mem_map] at h
  obtain ⟨n, _, hc⟩ := h
  exact ⟨n, hc.symm⟩

lemma safeDeleteCalls_mem {fam : Nat} {env : FGEnv} {removed : List String} {c : FGCall}
    (h : c ∈ safeDeleteCalls fam env removed) :
    (∃ nm, c = FGCall.getAddress fam nm) ∨
      (∃ nm rs r, c = FGCall.deleteAddress fam nm ∧ env.getAddressResp nm = some rs ∧
        rs.head? = some r ∧ r.q_ref = some 0) := by
  simp only [safeDeleteCalls, List.mem_flatMap, List.mem_cons] at h
  obtain ⟨nm, _, hc⟩ := h
  rcases hc with hc | hc
  · exact Or.inl ⟨nm, hc⟩
  · split at hc
    · rename_i rs hresp
      split at hc
      · rename_i r hhd
        split at hc
        · rename_i hq
          simp only [List.mem_singleton] at hc
          exact Or.inr ⟨nm, rs, r, hc, hresp, hhd, hq⟩
        · exact absurd hc (by simp)
      · exact absurd hc (by simp)
    · exact absurd hc (by simp)

lemma groupPhaseCalls_shape (fam : Nat) (grpTag : String) (env : FGEnv)
    (integ : NAMNetboxIntegrator) (groups : List FortiOSFirewallAddrGrp) (names : List String) :
    groupPhaseCalls fam grpTag env integ groups names = [] ∨
      (∃ gname, groupPhaseCalls fam grpTag env integ groups names =
        [FGCall.addAddressGroup fam gname names]) ∨
      (∃ gname ms removed, groupPhaseCalls fam grpTag env integ groups names =
        FGCall.updateAddressGroup fam gname ms :: safeDeleteCalls fam env removed) := by
  unfold groupPhaseCalls
  split
  · split
    · exact Or.inr (Or.inl ⟨_, rfl⟩)
    · split
      · exact Or.inr (Or.inr ⟨_, _, _, rfl⟩)
      · exact Or.inl rfl
  · exact Or.inl rfl

lemma deployAddressesCore_shape (fam : Nat) (grpTag : String) (fw : Bool) (env : FGEnv)
    (integ : NAMNetboxIntegrator) (names : List String) :
    deployAddressesCore fam grpTag fw env integ names = [] ∨
      deployAddressesCore fam grpTag fw env integ names =
        [FGCall.getAddressGroups fam, FGCall.getAddressList fam] ∨
      (∃ groups addresses, env.groupsResp = some groups ∧ env.addressesResp = some addresses ∧
        deployAddressesCore fam grpTag fw env integ names =
          FGCall.getAddressGroups fam :: FGCall.getAddressList fam ::
            (createCallsOf fam addresses names ++
              groupPhaseCalls fam grpTag env integ groups names)) := by
  unfold deployAddressesCore
  split
  · split
    · rename_i groups addresses hg ha
      exact Or.inr (Or.inr ⟨groups, addresses, hg, ha, rfl⟩)
    · exact Or.inr (Or.inl rfl)
  · exact Or.inl rfl

lemma deleteAddress_mem_core {fam : Nat} {grpTag : String} {fw : Bool} {env : FGEnv}
    {integ : NAMNetboxIntegrator} {names : List String} {f : Nat} {nm : String}
    (h : FGCall.deleteAddress f nm ∈ deployAddressesCore fam grpTag fw env integ names) :
    ∃ rs r, env.getAddressResp nm = some rs ∧ rs.head? = some r ∧ r.q_ref = some 0 := by
  rcases deployAddressesCore_shape fam grpTag fw env integ names with
    h0 | h0 | ⟨groups, addresses, _, _, h0⟩ <;> rw [h0] at h
  · exact absurd h (by simp)
  · exact absurd h (by simp)
  · simp only [List.mem_cons, List.mem_append] at h
    rcases h with h | h | h | h
    · exact absurd h (by simp)
    · exact absurd h (by simp)
    · obtain ⟨n, hn⟩ := createCallsOf_mem h
      exact absurd hn (by simp)
    · rcases groupPhaseCalls_shape fam grpTag env integ groups names with
        h1 | ⟨gname, h1⟩ | ⟨gname, ms, removed, h1⟩ <;> rw [h1] at h
      · exact absurd h (by simp)
      · simp only [List.mem_singleton] at h
        exact absurd h (by simp)
      · rcases List.mem_cons.mp h with h2 | h2
        · exact absurd h2 (by simp)
        · rcases safeDeleteCalls_mem h2 with ⟨nm', h3⟩ | ⟨nm', rs, r, h3, hresp, hhd, hq⟩
          · exact absurd h3 (by simp)
          · simp only [FGCall.deleteAddress.injEq] at h3
            rw [h3.2]
            exact ⟨rs, r, hresp, hhd, hq⟩

lemma addAddressGroup_mem_core {fam : Nat} {grpTag : String} {fw : Bool} {env : FGEnv}
    {integ : NAMNetboxIntegrator} {names : List String} {f : Nat} {gname : String}
    {ms : List String}
    (h : FGCall.addAddressGroup f gname ms ∈ deployAddressesCore fam grpTag fw env integ names) :
    ms = names := by
  rcases deployAddressesCore_shape fam grpTag fw env integ names with
    h0 | h0 | ⟨groups, addresses, _, _, h0⟩ <;> rw [h0] at h
  · exact absurd h (by simp)
  · exact absurd h (by simp)
  · simp only [List.mem_cons, List.mem_append] at h
    rcases h with h | h | h | h
    · exact absurd h (by simp)
    · exact absurd h (by simp)
    · obtain ⟨n, hn⟩ := createCallsOf_mem h
      exact absurd hn (by simp)
    · rcases groupPhaseCalls_shape fam grpTag env integ groups names with
        h1 | ⟨gname', h1⟩ | ⟨gname', ms', removed, h1⟩ <;> rw [h1] at h
      · exact absurd h (by simp)
      · simp only [List.mem_singleton, FGCall.addAddressGroup.injEq] at h
        exact h.2.2
      · rcases List.mem_cons.mp h with h2 | h2
        · exact absurd h2 (by simp)
        · rcases safeDeleteCalls_mem h2 with ⟨nm', h3⟩ | ⟨nm', rs, r, h3, _, _, _⟩
          · exact absurd h3 (by simp)
          · exact absurd h3 (by simp)

lemma fetch_or_delete_mem_core {fam : Nat} {grpTag : String} {fw : Bool} {env : FGEnv}
    {integ : NAMNetboxIntegrator} {names : List String} {f : Nat} {nm : String}
    (h : FGCall.getAddress f nm ∈ deployAddressesCore fam grpTag fw env integ names ∨
      FGCall.deleteAddress f nm ∈ deployAddressesCore fam grpTag fw env integ names) :
    ∃ pre post gname ms,
      deployAddressesCore fam grpTag fw env integ names =
        pre ++ FGCall.updateAddressGroup fam gname ms :: post ∧
      FGCall.getAddress f nm ∉ pre ∧ FGCall.deleteAddress f nm ∉ pre := by
  rcases deployAddressesCore_shape fam grpTag fw env integ names with
    h0 | h0 | ⟨groups, addresses, _, _, h0⟩
  · rw [h0] at h
    rcases h with h | h <;> exact absurd h (by simp)
  · rw [h0] at h
    rcases h with h | h <;> exact absurd h (by simp)
  · have hgp := groupPhaseCalls_shape fam grpTag env integ groups names
    rcases hgp with h1 | ⟨gname, h1⟩ | ⟨gname, ms, removed, h1⟩
    · rw [h0, h1] at h
      rcases h with h | h <;>
        · simp only [List.mem_cons, List.mem_append, List.not_mem_nil, or_false] at h
          rcases h with h | h | h
          · exact absurd h (by simp)
          · exact absurd h (by simp)
          · obtain ⟨n, hn⟩ := createCallsOf_mem h
            exact absurd hn (by simp)
    · rw [h0, h1] at h
      rcases h with h | h <;>
        · simp only [List.mem_cons, List.mem_append, List.mem_singleton] at h
          rcases h with h | h | h | h
          · exact absurd h (by simp)
          · exact absurd h (by simp)
          · obtain ⟨n, hn⟩ := createCallsOf_mem h
            exact absurd hn (by simp)
          · exact absurd h (by simp)
    · refine ⟨FGCall.getAddressGroups fam :: FGCall.getAddressList fam ::
        createCallsOf fam addresses names, safeDeleteCalls fam env removed, gname, ms, ?_, ?_, ?_⟩
      · rw [h0, h1]
        simp [List.cons_append]
      · intro hmem
        simp only [List.mem_cons] at hmem
        rcases hmem with hmem | hmem | hmem
        · exact absurd hmem (by simp)
        · exact absurd hmem (by simp)
        · obtain ⟨n, hn⟩ := createCallsOf_mem hmem
          exact absurd hn (by simp)
      · intro hmem
        simp only [List.mem_cons] at hmem
        rcases hmem with hmem | hmem | hmem
        · exact absurd hmem (by simp)
        · exact absurd hmem (by simp)
        · obtain ⟨n, hn⟩ := createCallsOf_mem hmem
          exact absurd hn (by simp)

/-- C1: in both FortiOS reconcilers, a `deleteAddress` call for a name is
issued only when the reference-count fetch for that name succeeded, returned
a first result, and that result's reference count is exactly zero; a failed
or empty fetch, or a non-zero count, suppresses the delete.  The concrete
scope `c1Env` shows the delete firing when the fetched count is zero. -/
theorem safeDelete_only_on_zero_refcount :
    (∀ (fw : Bool) (env : FGEnv) (integ : NAMNetboxIntegrator) (names : List String)
        (f : Nat) (nm : String),
      FGCall.deleteAddress f nm ∈ deployAddresses fw env integ names →
        ∃ rs r, env.getAddressResp nm = some rs ∧ rs.head? = some r ∧ r.q_ref = some 0) ∧
    (∀ (fw : Bool) (env : FGEnv) (integ : NAMNetboxIntegrator) (names : List String)
        (f : Nat) (nm : String),
      FGCall.deleteAddress f nm ∈ deployAddresses6 fw env integ names →
        ∃ rs r, env.getAddressResp nm = some rs ∧ rs.head? = some r ∧ r.q_ref = some 0) ∧
    FGCall.deleteAddress 4 "netbox_10.9.9.0/24" ∈
      deployAddresses true c1Env integEx ["netbox_10.0.0.0/24"] :=
  ⟨fun _ _ _ _ _ _ h => deleteAddress_mem_core h,
   fun _ _ _ _ _ _ h => deleteAddress_mem_core h,
   by decide⟩

/-- C2 counterexample: in the scope `c2Env` the group update call fails
(`updateOk = false`), yet the reconciler still issues the reference-count
fetch for the removed name — the update's failure is only logged and does
not suppress the safe-delete phase. -/
theorem updateFailure_does_not_suppress_safeDelete :
    c2Env.updateOk = false ∧
      FGCall.getAddress 4 "netbox_old" ∈ deployAddresses true c2Env integEx ["netbox_new"] :=
  ⟨rfl, by decide⟩

/-- C2 (amended): in both FortiOS reconcilers every reference-count fetch and
every delete of the safe-delete phase comes strictly after the group update
call in the issued call sequence (the update happens-before the deletions its
diff drives, and no fetch or delete is issued without an update call) — but
the phase runs whether the update call succeeded or failed.  The concrete
trace of `c2Env` shows the exact sequence with a failed update. -/
theorem safeDelete_after_update_call :
    (∀ (fw : Bool) (env : FGEnv) (integ : NAMNetboxIntegrator) (names : List String)
        (f : Nat) (nm : String),
      (FGCall.getAddress f nm ∈ deployAddresses fw env integ names ∨
        FGCall.deleteAddress f nm ∈ deployAddresses fw env integ names) →
        ∃ pre post gname ms,
          deployAddresses fw env integ names =
            pre ++ FGCall.updateAddressGroup 4 gname ms :: post ∧
          FGCall.getAddress f nm ∉ pre ∧ FGCall.deleteAddress f nm ∉ pre) ∧
    (∀ (fw : Bool) (env : FGEnv) (integ : NAMNetboxIntegrator) (names : List String)
        (f : Nat) (nm : String),
      (FGCall.getAddress f nm ∈ deployAddresses6 fw env integ names ∨
        FGCall.deleteAddress f nm ∈ deployAddresses6 fw env integ names) →
        ∃ pre post gname ms,
          deployAddresses6 fw env integ names =
            pre ++ FGCall.updateAddressGroup 6 gname ms :: post ∧
          FGCall.getAddress f nm ∉ pre ∧ FGCall.deleteAddress f nm ∉ pre) ∧
    deployAddresses true c2Env integEx ["netbox_new"] =
      [FGCall.getAddressGroups 4, FGCall.getAddressList 4,
        FGCall.updateAddressGroup 4 "grp_g" ["netbox_new"],
        FGCall.getAddress 4 "netbox_old"] :=
  ⟨fun _ _ _ _ _ _ h => fetch_or_delete_mem_core h,
   fun _ _ _ _ _ _ h => fetch_or_delete_mem_core h,
   by decide⟩

/-- C3 counterexample: with no existing group of the derived name and the
desired list holding the same name twice, the group-create call carries that
name twice — the member list passed to the create call is not
de-duplicated. -/
theorem groupCreate_duplicate_members :
    FGCall.addAddressGroup 4 "grp_g" ["netbox_dup", "netbox_dup"] ∈
        deployAddresses true c3Env integEx ["netbox_dup", "netbox_dup"] ∧
      ¬ (["netbox_dup", "netbox_dup"] : List String).Nodup :=
  ⟨by decide, by decide⟩

/-- C3 (amended): when no group of the derived name exists, both FortiOS
reconcilers create it with the member list equal to the desired objects'
names as given, in order and without de-duplication; the created member list
is therefore duplicate-free exactly when the desired names already are.  The
concrete scope `c3Env` grounds the create branch. -/
theorem groupCreate_members_are_desired_names :
    (∀ (fw : Bool) (env : FGEnv) (integ : NAMNetboxIntegrator) (names : List String)
        (f : Nat) (gname : String) (ms : List String),
      FGCall.addAddressGroup f gname ms ∈ deployAddresses fw env integ names → ms = names) ∧
    (∀ (fw : Bool) (env : FGEnv) (integ : NAMNetboxIntegrator) (names : List String)
        (f : Nat) (gname : String) (ms : List String),
      FGCall.addAddressGroup f gname ms ∈ deployAddresses6 fw env integ names → ms = names) ∧
    FGCall.addAddressGroup 4 "grp_g" ["netbox_a", "netbox_b"] ∈
      deployAddresses true c3Env integEx ["netbox_a", "netbox_b"] :=
  ⟨fun _ _ _ _ _ _ _ h => addAddressGroup_mem_core h,
   fun _ _ _ _ _ _ _ h => addAddressGroup_mem_core h,
   by decide⟩

/-- C9: when the fetched NSX group exists, the patch call is issued if and
only if the diff between the de-duplicated observed IP values and the
desired values has a non-empty added or removed side, and every patch call
carries the complete desired group spec.  The spec's scenario — observed
10.0.0.1, desired 10.0.0.2 — yields the diff added = [10.0.0.2],
removed = [10.0.0.1] and exactly one patch call with the full desired
spec. -/
theorem nsx_update_iff_diff_nonempty :
    (∀ (env : NSXEnv) (sg : VMwareNSXGroup) (records : List NetboxRecord) (gm : Bool)
        (g : VMwareNSXGroup), env.getGroupResp = some g →
      (NSXCall.patchGroup sg.display_name sg gm ∈ deploySecurityGroup env sg records gm ↔
        (nsxAdded (nsxObservedIps g) records ≠ [] ∨
          nsxDeleted (nsxObservedIps g) records ≠ []))) ∧
    (∀ (env : NSXEnv) (sg : VMwareNSXGroup) (records : List NetboxRecord) (gm : Bool)
        (nm : String) (grp : VMwareNSXGroup) (gmb : Bool),
      NSXCall.patchGroup nm grp gmb ∈ deploySecurityGroup env sg records gm → grp = sg) ∧
    nsxAdded (nsxObservedIps nsxObservedEx) nsxRecsEx = [some "10.0.0.2"] ∧
    nsxDeleted (nsxObservedIps nsxObservedEx) nsxRecsEx = [some "10.0.0.1"] ∧
    deploySecurityGroup c9Env nsxDesiredEx nsxRecsEx false =
      [NSXCall.getGroup "nsg-app" false, NSXCall.patchGroup "nsg-app" nsxDesiredEx false] := by
  refine ⟨?_, ?_, rfl, rfl, rfl⟩
  · intro env sg records gm g hg
    obtain ⟨resp, pOk⟩ := env
    simp only at hg
    subst hg
    constructor
    · intro h
      simp only [deploySecurityGroup, List.mem_cons] at h
      rcases h with h | h
      · exact absurd h (by simp)
      · by_cases hc : 0 < (nsxAdded (nsxObservedIps g) records).length ∨
            0 < (nsxDeleted (nsxObservedIps g) records).length
        · rcases hc with hc | hc
          · exact Or.inl (List.length_pos.mp hc)
          · exact Or.inr (List.length_pos.mp hc)
        · rw [if_neg hc] at h
          exact absurd h (by simp)
    · intro h
      have hc : 0 < (nsxAdded (nsxObservedIps g) records).length ∨
          0 < (nsxDeleted (nsxObservedIps g) records).length := by
        rcases h with h | h
        · exact Or.inl (List.length_pos.mpr h)
        · exact Or.inr (List.length_pos.mpr h)
      simp only [deploySecurityGroup, List.mem_cons]
      right
      rw [if_pos hc]
      simp
  · intro env sg records gm nm grp gmb h
    unfold deploySecurityGroup at h
    rcases List.mem_cons.mp h with h | h
    · exact absurd h (by simp)
    · split at h
      · simp only [List.mem_singleton, NSXCall.patchGroup.injEq] at h
        exact h.2.1
      · simp only at h
        split at h
        · simp only [List.mem_singleton, NSXCall.patchGroup.injEq] at h
          exact h.2.1
        · exact absurd h (by simp)
